import Mathlib

/-!
# Motif liquidator: `bamliquidator_internal/motif_global_liquidator.m.cpp`

A shallow embedding of `liquidate` and `main`, and the properties of the
specification that are about them.

Conventions of the embedding.

* A `std::string` is a `List Char`; file names and messages stay `String`.
* A `size_t` is a `Nat` below `2 ^ 64`. The `second` of a motif pair is given
  by the caller, so its `++` is the wrapping `size_t_incr`. `read_count` is
  `0` at the start of every call and moves by one `++` per record at most, so
  its wrap-around needs `2 ^ 64` records; it is left out of the model.
* The BAM file behind `bam_open` / `bam_header_read` / `bam_read1` is the
  value `Option (List bam1_t)`: `none` when opening or reading the header
  fails, `some records` with the records that `bam_read1` delivers before it
  first returns a negative value.
* `bam_nt16_rev_table` is a constant of the samtools library, not of this
  repository: `liquidate` takes the table as a parameter, and the theorems on
  `liquidate` hold for every table.
-/

namespace MotifLiquidator

/-! ## Helpers of `bamliquidator_util.h` -/

/-- Modelled from the spec: the per-base part of `complement` of
`bamliquidator_util.h` (the header is not among the sources). The spec gives
`A↔T, C↔G` on the motif alphabet; it says nothing on other characters, which
are left as they are here, and no theorem below depends on that choice. -/
def complement_base : Char → Char
  | 'A' => 'T'
  | 'T' => 'A'
  | 'C' => 'G'
  | 'G' => 'C'
  | c => c

/-- Modelled from the spec: `complement` of `bamliquidator_util.h` (the header
is not among the sources): "complement each base: A↔T, C↔G", position by
position, without reversing. -/
def complement (sequence : List Char) : List Char :=
  sequence.map complement_base

/-- Modelled from the spec: `contains` of `bamliquidator_util.h` (the header is
not among the sources): the second string occurs in the first "as a contiguous
substring", by "case-sensitive exact character match". -/
def contains (haystack needle : List Char) : Bool :=
  haystack.tails.any (fun t => needle.isPrefixOf t)

/-! ## The record and its packed bases -/

/-- The part of the samtools record `bam1_t` that `liquidate` reads: `core.l_qseq`, the
declared number of bases, and `bam1_seq(read)`, the bytes that hold them "with
two bases packed into each byte". -/
structure bam1_t where
  l_qseq : Nat
  seq : List Nat
  deriving DecidableEq, Repr

/-- The samtools macro `bam1_seqi(s, i)`, which is
`((s)[(i)/2] >> 4*(1-(i)%2) & 0xf)`: the high nibble of byte `i/2` for an even
`i`, the low nibble for an odd `i`. A byte past the end of `s` reads as `0`. -/
def bam1_seqi (s : List Nat) (i : Nat) : Nat :=
  (s.getD (i / 2) 0 >>> (4 * (1 - i % 2))) &&& 0xf

/-- The samtools constant `bam_nt16_rev_table`, the character of each 4-bit
base code of the BAM format: the string `=ACMGRSVTWYHKDBN` indexed by the code.
It is defined by the samtools library, outside this repository. -/
def bam_nt16_rev_table (code : Nat) : Char :=
  "=ACMGRSVTWYHKDBN".toList.getD code ' '

/-! ## `liquidate` -/

/-- Lines 17-18 of `liquidate`: `complement` of the motif text, then
`std::reverse` of the result in place. -/
def reverse_complement (motif : List Char) : List Char :=
  (complement motif).reverse

/-- Lines 14-20 of `liquidate`: the reverse complement of every motif pair,
pushed in the order of `motif_counts`. -/
def reverse_complements (motif_counts : List (List Char × Nat)) : List (List Char) :=
  motif_counts.map (fun p => reverse_complement p.1)

/-- Lines 45-49: the scratch string is replaced by `l_qseq` blanks when its
size differs from `l_qseq`, and kept otherwise. -/
def resize_sequence (sequence : List Char) (l_qseq : Nat) : List Char :=
  if sequence.length ≠ l_qseq then List.replicate l_qseq ' ' else sequence

/-- Body of the `for` loop of lines 52-59 at index `i`: store the decoded
character at `sequence[i]`, read it back and raise `readHasN` when it is `N`. -/
def decode_step (table : Nat → Char) (s : List Nat)
    (st : List Char × Bool) (i : Nat) : List Char × Bool :=
  let sequence := st.1.set i (table (bam1_seqi s i))
  (sequence, if sequence.getD i ' ' = 'N' then true else st.2)

/-- Lines 45-59: resize the scratch string left by the previous record, then
run the decode loop for `i = 0 .. l_qseq - 1` from `readHasN = false`. The
result is the scratch string and `readHasN` after the loop. -/
def decode_read (table : Nat → Char) (sequence : List Char) (read : bam1_t) :
    List Char × Bool :=
  (List.range read.l_qseq).foldl (decode_step table read.seq)
    (resize_sequence sequence read.l_qseq, false)

/-- The `++` of a `size_t` (64 bits): one more, and `0` after `2 ^ 64 - 1`. -/
def size_t_incr (count : Nat) : Nat :=
  (count + 1) % 2 ^ 64

/-- Lines 66-72: every motif pair whose text, or whose reverse complement at
the same index, is contained in `sequence` has its `size_t` counter incremented
once, by `++(motif_counts[i].second)`. -/
def count_motifs (sequence : List Char) :
    List (List Char × Nat) → List (List Char) → List (List Char × Nat)
  | p :: motif_counts, rc :: reverse_complements =>
      (if contains sequence p.1 || contains sequence rc then (p.1, size_t_incr p.2) else p)
        :: count_motifs sequence motif_counts reverse_complements
  | motif_counts, _ => motif_counts

/-- The variables that live across iterations of the `while` loop of
`liquidate`: the scratch string, the read counter, the motif pairs. -/
structure LoopState where
  sequence : List Char
  read_count : Nat
  motif_counts : List (List Char × Nat)
  deriving DecidableEq, Repr

/-- One iteration of the `while` loop (lines 36-72) on the record `read`. -/
def liquidate_read (table : Nat → Char) (reverse_complements : List (List Char))
    (st : LoopState) (read : bam1_t) : LoopState :=
  let d := decode_read table st.sequence read
  if d.2 then
    { st with sequence := d.1 }
  else
    { sequence := d.1
      read_count := st.read_count + 1
      motif_counts := count_motifs d.1 st.motif_counts reverse_complements }

/-- The `while` loop of lines 31-73 over the records of the file, from an empty
scratch string and `read_count = 0`. -/
def liquidate_loop (table : Nat → Char) (records : List bam1_t)
    (motif_counts : List (List Char × Nat)) : LoopState :=
  records.foldl (liquidate_read table (reverse_complements motif_counts))
    { sequence := [], read_count := 0, motif_counts := motif_counts }

/-- The function `liquidate`. `input` is what opening `input_bam_file` gives.
The result is the thrown message, or the returned `read_count` together with
`motif_counts` as the call leaves it. -/
def liquidate (table : Nat → Char) (input_bam_file : String)
    (input : Option (List bam1_t)) (motif_counts : List (List Char × Nat)) :
    Except String (Nat × List (List Char × Nat)) :=
  match input with
  | none => Except.error ("failed to open " ++ input_bam_file)
  | some records =>
      let st := liquidate_loop table records motif_counts
      Except.ok (st.read_count, st.motif_counts)

/-! ## `main` -/

/-- What `main` writes to standard output, one item per written line. The two
normalized rates of a motif row are the doubles `matches / (double(count) / 1E6)`
sent to `std::cout`; an item keeps the integers they are computed from, not
their floating-point value or their printed digits. -/
inductive Printed where
  | header
  | row (motif : List Char)
      (background_matches background_count target_matches target_count : Nat)
  | totals (background_count target_count : Nat)
  deriving DecidableEq, Repr

/-- What a run of `main` leaves: the returned code, the items written to
`std::cout` and the lines written to `std::cerr`. -/
structure Outcome where
  exit_code : Nat
  stdout : List Printed
  stderr : List String
  deriving DecidableEq, Repr

/-- Lines 94-98 of `main`: one pair per argument from `argv[3]` on, in order,
each with the counter `0`. -/
def initial_motif_counts (argv : List String) : List (List Char × Nat) :=
  (argv.drop 3).map (fun a => (a.toList, 0))

/-- The `for` loop of lines 107-121: one row per position, until the motif
texts of the two lists differ at a position, where "internal logic error" is
thrown after the rows written so far. -/
def print_rows (background_count target_count : Nat) :
    List (List Char × Nat) → List (List Char × Nat) → List Printed × Option String
  | b :: background_motif_counts, t :: target_motif_counts =>
      if b.1 ≠ t.1 then
        ([], some "internal logic error")
      else
        let rest := print_rows background_count target_count
          background_motif_counts target_motif_counts
        (Printed.row b.1 b.2 background_count t.2 target_count :: rest.1, rest.2)
  | _, _ => ([], none)

/-- The function `main`: `argv` are the arguments with the program name first,
`files` tells what opening a path gives. -/
def main (table : Nat → Char) (files : String → Option (List bam1_t))
    (argv : List String) : Outcome :=
  if argv.length < 4 then
    { exit_code := 1
      stdout := []
      stderr :=
        [ "Usage: " ++ argv.getD 0 "" ++
            " [BACKGROUND_BAM] [TARGET_BAM] [MOTIF_1] [MOTIF_2] ... [MOTIF_N]",
          "e.g. " ++ argv.getD 0 "" ++ " background.bam input.bam TGGGAA AGGG" ] }
  else
    let background_bam_file := argv.getD 1 ""
    let target_bam_file := argv.getD 2 ""
    let background_motif_counts := initial_motif_counts argv
    let target_motif_counts := background_motif_counts
    match liquidate table background_bam_file (files background_bam_file)
        background_motif_counts with
    | Except.error e => { exit_code := 2, stdout := [], stderr := [e] }
    | Except.ok (background_count, background_motif_counts) =>
      match liquidate table target_bam_file (files target_bam_file)
          target_motif_counts with
      | Except.error e => { exit_code := 2, stdout := [], stderr := [e] }
      | Except.ok (target_count, target_motif_counts) =>
        let rows := print_rows background_count target_count
          background_motif_counts target_motif_counts
        match rows.2 with
        | some e => { exit_code := 2, stdout := Printed.header :: rows.1, stderr := [e] }
        | none =>
          { exit_code := 0
            stdout := Printed.header :: rows.1 ++
              [Printed.totals background_count target_count]
            stderr := [] }

/-! ## The resources of `liquidate` -/

/-- The three things `liquidate` acquires at lines 22-24: the record object of
`bam_init1`, the file handle of `bam_open`, the header of `bam_header_read`. -/
inductive Resource where
  | read
  | input
  | header
  deriving DecidableEq, Repr

/-- A call of `liquidate` that obtains a resource or gives one back. -/
inductive ResourceEvent where
  | acquire (r : Resource)
  | release (r : Resource)
  deriving DecidableEq, Repr

/-- What the three calls of lines 22-24 return: `true` for a pointer that is
not null. -/
structure Acquisitions where
  read : Bool
  input : Bool
  header : Bool
  deriving DecidableEq, Repr

/-- Lines 22-24: `bam_init1`, `bam_open`, `bam_header_read`, in this order;
each call that returns a pointer that is not null has acquired its resource. -/
def acquire_events (a : Acquisitions) : List ResourceEvent :=
  (if a.read then [ResourceEvent.acquire Resource.read] else [])
    ++ (if a.input then [ResourceEvent.acquire Resource.input] else [])
    ++ (if a.header then [ResourceEvent.acquire Resource.header] else [])

/-- What the file gives to the `while` loop: the records when the three
pointers of line 26 are all set, nothing when the test of line 26 throws. -/
def opened (a : Acquisitions) (records : List bam1_t) : Option (List bam1_t) :=
  if a.read = false || a.input = false || a.header = false then none else some records

/-- The resource calls of `liquidate` on one run, and whether it threw. The
test of line 26 throws at line 28 with no call in between; the normal path
runs the loop and then `bam_header_destroy(header)`, `bam_close(input)`,
`bam_destroy1(read)` of lines 75-77. -/
def liquidate_resources (a : Acquisitions) : List ResourceEvent × Bool :=
  if a.read = false || a.input = false || a.header = false then
    (acquire_events a, true)
  else
    (acquire_events a ++
      [ResourceEvent.release Resource.header, ResourceEvent.release Resource.input,
        ResourceEvent.release Resource.read], false)

/-- How many times `r` is released in a run. -/
def release_count (r : Resource) (events : List ResourceEvent) : Nat :=
  events.count (ResourceEvent.release r)

/-- The resources still held after a run: acquired, and not released since. -/
def still_held : List ResourceEvent → List Resource
  | [] => []
  | ResourceEvent.acquire r :: events =>
      if ResourceEvent.release r ∈ events then still_held events else r :: still_held events
  | ResourceEvent.release _ :: events => still_held events

/-! ## Reference notions of the specification -/

/-- The decoded sequence of a record: the table entry of each of its first
`l_qseq` 4-bit codes, in order. -/
def decoded (table : Nat → Char) (read : bam1_t) : List Char :=
  (List.range read.l_qseq).map (fun i => table (bam1_seqi read.seq i))

/-- A usable read: its decoded sequence has no `N`. -/
def usable (table : Nat → Char) (read : bam1_t) : Bool :=
  decide ('N' ∉ decoded table read)

/-- A read that counts for `motif`: it is usable and its decoded sequence has
the motif text, or the reverse complement of the motif, as a contiguous
substring. -/
def counts_for (table : Nat → Char) (motif : List Char) (read : bam1_t) : Bool :=
  decide ('N' ∉ decoded table read ∧
    (motif <:+: decoded table read ∨ reverse_complement motif <:+: decoded table read))

/-! ## Records for the examples -/

/-- The 4-bit code of a base character in the BAM format, for building example
records. -/
def nt16_code (c : Char) : Nat :=
  ("=ACMGRSVTWYHKDBN".toList.indexOf c) % 16

/-- Pack 4-bit codes two to a byte, the first of each pair in the high nibble. -/
def pack_codes : List Nat → List Nat
  | a :: b :: rest => (a * 16 + b) :: pack_codes rest
  | [a] => [a * 16]
  | [] => []

/-- The record whose bases spell `bases`. -/
def read_of (bases : String) : bam1_t :=
  { l_qseq := bases.toList.length, seq := pack_codes (bases.toList.map nt16_code) }

/-! ## Lemmas on the decode loop and the record loop -/

theorem contains_iff_infix (haystack needle : List Char) :
    contains haystack needle = true ↔ needle <:+: haystack := by
  unfold contains
  rw [List.any_eq_true, List.infix_iff_prefix_suffix]
  constructor
  · rintro ⟨t, ht, hp⟩
    exact ⟨t, List.isPrefixOf_iff_prefix.mp hp, (List.mem_tails _ _).mp ht⟩
  · rintro ⟨t, hp, hs⟩
    exact ⟨t, (List.mem_tails _ _).mpr hs, List.isPrefixOf_iff_prefix.mpr hp⟩

theorem resize_sequence_length (sequence : List Char) (n : Nat) :
    (resize_sequence sequence n).length = n := by
  unfold resize_sequence
  split
  · simp
  · rename_i h
    simpa using h

/-- Invariant of the decode loop after `k` iterations over a buffer of the
declared length. -/
theorem decode_fold_invariant (table : Nat → Char) (s : List Nat) (buf : List Char) :
    ∀ k, k ≤ buf.length →
      (List.range k).foldl (decode_step table s) (buf, false)
        = ((List.range k).map (fun i => table (bam1_seqi s i)) ++ buf.drop k,
            decide ('N' ∈ (List.range k).map (fun i => table (bam1_seqi s i)))) := by
  intro k
  induction k with
  | zero => intro _; simp
  | succ k ih =>
    intro hk
    have hk' : k < buf.length := hk
    rw [List.range_succ, List.foldl_append, ih (Nat.le_of_lt hk')]
    simp only [List.foldl_cons, List.foldl_nil, decode_step, List.map_append, List.map_cons,
      List.map_nil]
    have hlen : ((List.range k).map (fun i => table (bam1_seqi s i))).length = k := by simp
    have hset : ((List.range k).map (fun i => table (bam1_seqi s i)) ++ buf.drop k).set k
          (table (bam1_seqi s k))
        = (List.range k).map (fun i => table (bam1_seqi s i)) ++ [table (bam1_seqi s k)]
            ++ buf.drop (k + 1) := by
      rw [List.set_append_right _ _ (by simp), List.drop_eq_getElem_cons hk']
      simp only [List.length_map, List.length_range, Nat.sub_self, List.set_cons_zero,
        List.append_assoc, List.singleton_append]
    rw [hset]
    have hget : ((List.range k).map (fun i => table (bam1_seqi s i)) ++ [table (bam1_seqi s k)]
            ++ buf.drop (k + 1)).getD k ' ' = table (bam1_seqi s k) := by
      rw [List.append_assoc, List.getD_append_right _ _ _ _ (by simp)]
      simp
    rw [hget]
    by_cases hN : table (bam1_seqi s k) = 'N'
    · simp [hN]
    · have hN' : ¬ 'N' = table (bam1_seqi s k) := fun h => hN h.symm
      simp [hN, hN']

theorem decode_read_eq (table : Nat → Char) (sequence : List Char) (read : bam1_t) :
    decode_read table sequence read
      = (decoded table read, decide ('N' ∈ decoded table read)) := by
  unfold decode_read decoded
  have hlen := resize_sequence_length sequence read.l_qseq
  rw [decode_fold_invariant table read.seq _ read.l_qseq (by omega)]
  have : (resize_sequence sequence read.l_qseq).drop read.l_qseq = [] := by
    apply List.drop_eq_nil_of_le
    omega
  rw [this]
  simp

/-! ### The wrapping counter -/

theorem size_t_incr_iterate_of_lt (count : Nat) :
    ∀ k : Nat, count + k < 2 ^ 64 → size_t_incr^[k] count = count + k := by
  intro k
  induction k generalizing count with
  | zero => intro _; rfl
  | succ k ih =>
    intro h
    have h1 : size_t_incr count = count + 1 := by
      unfold size_t_incr
      exact Nat.mod_eq_of_lt (by omega)
    rw [Function.iterate_succ_apply, h1, ih (count + 1) (by omega)]
    omega

theorem size_t_incr_iterate_mod (count : Nat) (hcount : count < 2 ^ 64) :
    ∀ k : Nat, size_t_incr^[k] count = (count + k) % 2 ^ 64 := by
  intro k
  induction k with
  | zero => exact (Nat.mod_eq_of_lt hcount).symm
  | succ k ih =>
    rw [Function.iterate_succ_apply', ih]
    unfold size_t_incr
    rw [Nat.add_mod, Nat.mod_mod, ← Nat.add_mod]
    rfl

theorem size_t_incr_iterate_zero_le (k : Nat) : size_t_incr^[k] 0 ≤ k := by
  rw [size_t_incr_iterate_mod 0 (by decide) k, Nat.zero_add]
  exact Nat.mod_le _ _

/-! ### The record loop in closed form -/

/-- The increment of one motif pair by one usable read. -/
theorem count_motifs_eq_map (sequence : List Char) :
    ∀ (motif_counts original : List (List Char × Nat)),
      motif_counts.map Prod.fst = original.map Prod.fst →
      count_motifs sequence motif_counts (reverse_complements original)
        = motif_counts.map (fun p =>
            (p.1, if contains sequence p.1 || contains sequence (reverse_complement p.1)
              then size_t_incr p.2 else p.2)) := by
  intro motif_counts
  induction motif_counts with
  | nil => intro original _; cases original <;> simp [count_motifs, reverse_complements]
  | cons p ps ih =>
    intro original h
    cases original with
    | nil => simp at h
    | cons q qs =>
      simp only [List.map_cons, List.cons.injEq] at h
      obtain ⟨h1, h2⟩ := h
      have ih' := ih qs h2
      simp only [reverse_complements, List.map_cons, count_motifs] at ih' ⊢
      rw [ih']
      have hq : reverse_complement q.1 = reverse_complement p.1 := by rw [h1]
      simp only [hq]
      by_cases hc : (contains sequence p.1 || contains sequence (reverse_complement p.1)) = true
      · simp [hc]
      · simp [hc]

theorem liquidate_read_eq (table : Nat → Char) (original : List (List Char × Nat))
    (st : LoopState) (read : bam1_t)
    (h : st.motif_counts.map Prod.fst = original.map Prod.fst) :
    liquidate_read table (reverse_complements original) st read
      = { sequence := decoded table read
          read_count := st.read_count + if usable table read then 1 else 0
          motif_counts := st.motif_counts.map (fun p =>
            (p.1, if counts_for table p.1 read then size_t_incr p.2 else p.2)) } := by
  unfold liquidate_read
  simp only [decode_read_eq]
  by_cases hN : 'N' ∈ decoded table read
  · have hmap : st.motif_counts.map (fun p : List Char × Nat =>
        (p.1, if counts_for table p.1 read then size_t_incr p.2 else p.2))
          = st.motif_counts := by
      conv_rhs => rw [← List.map_id st.motif_counts]
      apply List.map_congr_left
      intro p _
      simp [counts_for, hN]
    simp [usable, hN, hmap]
  · rw [count_motifs_eq_map _ _ _ h]
    simp only [usable, hN, not_false_eq_true, decide_True, decide_False, if_true, if_false,
      Bool.false_eq_true, LoopState.mk.injEq, true_and]
    apply List.map_congr_left
    intro p _
    have e : (contains (decoded table read) p.1
          || contains (decoded table read) (reverse_complement p.1)) = counts_for table p.1 read := by
      rw [Bool.eq_iff_iff]
      simp [counts_for, hN, contains_iff_infix]
    rw [e]

theorem foldl_liquidate_read (table : Nat → Char) (original : List (List Char × Nat)) :
    ∀ (records : List bam1_t) (st : LoopState),
      st.motif_counts.map Prod.fst = original.map Prod.fst →
      ((records.foldl (liquidate_read table (reverse_complements original)) st).read_count
          = st.read_count + records.countP (usable table)) ∧
      ((records.foldl (liquidate_read table (reverse_complements original)) st).motif_counts
          = st.motif_counts.map (fun p =>
              (p.1, size_t_incr^[records.countP (counts_for table p.1)] p.2))) := by
  intro records
  induction records with
  | nil => intro st _; simp
  | cons r rs ih =>
    intro st h
    rw [List.foldl_cons, liquidate_read_eq table original st r h]
    have h' : (st.motif_counts.map (fun p : List Char × Nat =>
        (p.1, if counts_for table p.1 r then size_t_incr p.2 else p.2))).map Prod.fst
          = original.map Prod.fst := by
      rw [← h, List.map_map]
      rfl
    obtain ⟨ih1, ih2⟩ := ih
      { sequence := decoded table r
        read_count := st.read_count + if usable table r then 1 else 0
        motif_counts := st.motif_counts.map (fun p =>
          (p.1, if counts_for table p.1 r then size_t_incr p.2 else p.2)) } h'
    constructor
    · rw [ih1, List.countP_cons]
      simp only
      omega
    · rw [ih2, List.map_map]
      apply List.map_congr_left
      intro p _
      simp only [Function.comp, List.countP_cons]
      by_cases hc : counts_for table p.1 r = true
      · simp only [hc, if_true, Function.iterate_succ_apply]
      · simp only [hc, if_false, Bool.false_eq_true, Nat.add_zero]

/-- The result of `liquidate` on a file that opens: the number of usable
records, and every counter incremented once per record that counts for its
motif. -/
theorem liquidate_some_eq (table : Nat → Char) (input_bam_file : String)
    (records : List bam1_t) (motif_counts : List (List Char × Nat)) :
    liquidate table input_bam_file (some records) motif_counts
      = Except.ok (records.countP (usable table),
          motif_counts.map (fun p =>
            (p.1, size_t_incr^[records.countP (counts_for table p.1)] p.2))) := by
  obtain ⟨h1, h2⟩ := foldl_liquidate_read table motif_counts records
    { sequence := [], read_count := 0, motif_counts := motif_counts } rfl
  simp only [liquidate, liquidate_loop, h1, h2, Nat.zero_add]

/-! ## Matching and counting -/

/-- C1, as the claim states it, fails: with the counter of `AGGG` pre-seeded to
`2 ^ 64 - 1`, the largest `size_t`, one usable read that contains the reverse
complement `CCCT` leaves the counter at `0`, not at its value before the call
plus one. -/
theorem counter_wraps_at_size_t_max :
    liquidate bam_nt16_rev_table "target.bam" (some [read_of "ACCCTA"])
        [("AGGG".toList, 2 ^ 64 - 1)]
      = Except.ok (1, [("AGGG".toList, 0)])
    ∧ [read_of "ACCCTA"].countP (fun r =>
        decide ('N' ∉ decoded bam_nt16_rev_table r ∧
          ("AGGG".toList <:+: decoded bam_nt16_rev_table r
            ∨ reverse_complement "AGGG".toList <:+: decoded bam_nt16_rev_table r))) = 1
    ∧ ¬ ((liquidate bam_nt16_rev_table "target.bam" (some [read_of "ACCCTA"])
          [("AGGG".toList, 2 ^ 64 - 1)]).map Prod.snd
        = Except.ok ([("AGGG".toList, 2 ^ 64 - 1)].map (fun p =>
            (p.1, p.2 + [read_of "ACCCTA"].countP (fun r =>
              decide ('N' ∉ decoded bam_nt16_rev_table r ∧
                (p.1 <:+: decoded bam_nt16_rev_table r
                  ∨ reverse_complement p.1 <:+: decoded bam_nt16_rev_table r))))))) := by
  have hrun : liquidate bam_nt16_rev_table "target.bam" (some [read_of "ACCCTA"])
        [("AGGG".toList, 2 ^ 64 - 1)]
      = Except.ok (1, [("AGGG".toList, 0)]) := by rfl
  refine ⟨hrun, by decide, ?_⟩
  rw [hrun]
  intro h
  simp only [Except.map, List.map_cons, List.map_nil, Except.ok.injEq, List.cons.injEq,
    Prod.mk.injEq, true_and, and_true] at h
  omega

/-- C1, amended: after `liquidate` on any records and any motif list of
`size_t` counters, every counter is its value before the call plus the number of
records whose decoded sequence has no `N` and has the motif text or its reverse
complement as a contiguous substring, modulo `2 ^ 64`; it is that sum itself
whenever the sum is below `2 ^ 64`; and a usable read that has only the reverse
complement of a motif, not the motif, takes a counter below `2 ^ 64 - 1` up by
one. -/
theorem liquidate_counts_motif_or_reverse_complement (table : Nat → Char)
    (input_bam_file : String) (records : List bam1_t)
    (motif_counts : List (List Char × Nat)) :
    ((∀ p ∈ motif_counts, p.2 < 2 ^ 64) →
      (liquidate table input_bam_file (some records) motif_counts).map Prod.snd
        = Except.ok (motif_counts.map (fun p =>
            (p.1, (p.2 + records.countP (fun r =>
              decide ('N' ∉ decoded table r ∧
                (p.1 <:+: decoded table r ∨ reverse_complement p.1 <:+: decoded table r))))
              % 2 ^ 64))))
    ∧ ((∀ p ∈ motif_counts, p.2 + records.countP (fun r =>
            decide ('N' ∉ decoded table r ∧
              (p.1 <:+: decoded table r ∨ reverse_complement p.1 <:+: decoded table r)))
          < 2 ^ 64) →
      (liquidate table input_bam_file (some records) motif_counts).map Prod.snd
        = Except.ok (motif_counts.map (fun p =>
            (p.1, p.2 + records.countP (fun r =>
              decide ('N' ∉ decoded table r ∧
                (p.1 <:+: decoded table r ∨ reverse_complement p.1 <:+: decoded table r)))))))
    ∧ ∀ (read : bam1_t) (motif : List Char) (count : Nat),
        count + 1 < 2 ^ 64 →
        'N' ∉ decoded table read →
        ¬ motif <:+: decoded table read →
        reverse_complement motif <:+: decoded table read →
        (liquidate table input_bam_file (some [read]) [(motif, count)]).map Prod.snd
          = Except.ok [(motif, count + 1)] := by
  refine ⟨?_, ?_, ?_⟩
  · intro hsize
    rw [liquidate_some_eq]
    simp only [Except.map, Except.ok.injEq]
    apply List.map_congr_left
    intro p hp
    rw [size_t_incr_iterate_mod p.2 (hsize p hp)]
    rfl
  · intro hsum
    rw [liquidate_some_eq]
    simp only [Except.map, Except.ok.injEq]
    apply List.map_congr_left
    intro p hp
    have h := size_t_incr_iterate_of_lt p.2 (records.countP (counts_for table p.1)) (hsum p hp)
    rw [h]
    rfl
  · intro read motif count hcount hN _ hrc
    have hc : counts_for table motif read = true := by simp [counts_for, hN, hrc]
    have hone : size_t_incr count = count + 1 := Nat.mod_eq_of_lt hcount
    rw [liquidate_some_eq]
    simp [Except.map, hc, hone]

/-- Witness of C1: the read `ACCCTA` has no `N`, does not contain `AGGG` nor
its plain complement `TCCC`, and contains its reverse complement `CCCT`. Among
three records, one of them with an `N`, it is the only one that counts for
`AGGG`: a counter at `2 ^ 64 - 1` goes to `0`, a counter at 5 goes to 6, and the
counter of `TGGGAA` stays where it is. -/
theorem liquidate_counts_motif_or_reverse_complement_witness :
    ((∀ p ∈ [("AGGG".toList, 2 ^ 64 - 1), ("TGGGAA".toList, 7)], p.2 < 2 ^ 64)
      ∧ (liquidate bam_nt16_rev_table "target.bam"
            (some [read_of "ACCCTA", read_of "AGGGN", read_of "ACGT"])
            [("AGGG".toList, 2 ^ 64 - 1), ("TGGGAA".toList, 7)]).map Prod.snd
          = Except.ok [("AGGG".toList, 0), ("TGGGAA".toList, 7)])
    ∧ (liquidate bam_nt16_rev_table "target.bam"
            (some [read_of "ACCCTA", read_of "AGGGN", read_of "ACGT"])
            [("AGGG".toList, 5), ("TGGGAA".toList, 7)]).map Prod.snd
          = Except.ok [("AGGG".toList, 6), ("TGGGAA".toList, 7)]
    ∧ 0 + 1 < 2 ^ 64
    ∧ 'N' ∉ decoded bam_nt16_rev_table (read_of "ACCCTA")
    ∧ ¬ "AGGG".toList <:+: decoded bam_nt16_rev_table (read_of "ACCCTA")
    ∧ ¬ complement "AGGG".toList <:+: decoded bam_nt16_rev_table (read_of "ACCCTA")
    ∧ reverse_complement "AGGG".toList <:+: decoded bam_nt16_rev_table (read_of "ACCCTA")
    ∧ (liquidate bam_nt16_rev_table "target.bam" (some [read_of "ACCCTA"])
          [("AGGG".toList, 0)]).map Prod.snd = Except.ok [("AGGG".toList, 0 + 1)] :=
  ⟨⟨by decide,
      (liquidate_counts_motif_or_reverse_complement bam_nt16_rev_table "target.bam"
        [read_of "ACCCTA", read_of "AGGGN", read_of "ACGT"]
        [("AGGG".toList, 2 ^ 64 - 1), ("TGGGAA".toList, 7)]).1 (by decide)⟩,
    (liquidate_counts_motif_or_reverse_complement bam_nt16_rev_table "target.bam"
      [read_of "ACCCTA", read_of "AGGGN", read_of "ACGT"]
      [("AGGG".toList, 5), ("TGGGAA".toList, 7)]).2.1 (by decide),
    by decide, by decide, by decide, by decide, by decide,
    (liquidate_counts_motif_or_reverse_complement bam_nt16_rev_table "target.bam" [] []).2.2
      (read_of "ACCCTA") "AGGG".toList 0 (by decide) (by decide) (by decide) (by decide)⟩

/-- C2: the value `liquidate` returns is the number of records none of whose
bases decodes to `N`; appending one more record adds exactly one to it when no
base of that record decodes to `N` (whatever else its bases decode to), and
nothing otherwise. -/
theorem liquidate_returns_usable_read_count (table : Nat → Char)
    (input_bam_file : String) (records : List bam1_t)
    (motif_counts : List (List Char × Nat)) :
    (liquidate table input_bam_file (some records) motif_counts).map Prod.fst
        = Except.ok (records.countP (fun r => decide ('N' ∉ decoded table r)))
    ∧ ∀ read : bam1_t,
        (liquidate table input_bam_file (some (records ++ [read])) motif_counts).map Prod.fst
          = Except.ok (records.countP (fun r => decide ('N' ∉ decoded table r))
              + if 'N' ∈ decoded table read then 0 else 1) := by
  constructor
  · rw [liquidate_some_eq]
    rfl
  · intro read
    rw [liquidate_some_eq]
    have hcount : List.countP (usable table) (records ++ [read])
        = List.countP (fun r => decide ('N' ∉ decoded table r)) records
          + if 'N' ∈ decoded table read then 0 else 1 := by
      rw [List.countP_append]
      congr 1
      by_cases hN : 'N' ∈ decoded table read
      · simp [usable, hN]
      · simp [usable, hN]
    rw [hcount]
    rfl

/-- C3: a record whose decoded sequence has an `N`, inserted at any position of
the dataset, changes neither the total that `liquidate` returns nor any motif
counter, whatever else the record contains. -/
theorem liquidate_ignores_ambiguous_read (table : Nat → Char)
    (input_bam_file : String) (before after : List bam1_t) (read : bam1_t)
    (motif_counts : List (List Char × Nat))
    (hN : 'N' ∈ decoded table read) :
    liquidate table input_bam_file (some (before ++ read :: after)) motif_counts
      = liquidate table input_bam_file (some (before ++ after)) motif_counts := by
  have hu : usable table read = false := by simp [usable, hN]
  have hc : ∀ motif, counts_for table motif read = false := by
    intro motif
    simp [counts_for, hN]
  rw [liquidate_some_eq, liquidate_some_eq]
  simp [List.countP_append, List.countP_cons, hu, hc]

/-- Witness of C3: the read `AGGGNCCCT` has an `N` and also contains the motif
`AGGG` and its reverse complement; inserting it between two usable reads leaves
the result of `liquidate` as it is. -/
theorem liquidate_ignores_ambiguous_read_witness :
    'N' ∈ decoded bam_nt16_rev_table (read_of "AGGGNCCCT")
    ∧ "AGGG".toList <:+: decoded bam_nt16_rev_table (read_of "AGGGNCCCT")
    ∧ liquidate bam_nt16_rev_table "target.bam"
          (some ([read_of "AGGGT"] ++ read_of "AGGGNCCCT" :: [read_of "ACGT"]))
          [("AGGG".toList, 0)]
        = liquidate bam_nt16_rev_table "target.bam"
          (some ([read_of "AGGGT"] ++ [read_of "ACGT"])) [("AGGG".toList, 0)] :=
  ⟨by decide, by decide,
    liquidate_ignores_ambiguous_read bam_nt16_rev_table "target.bam"
      [read_of "AGGGT"] [read_of "ACGT"] (read_of "AGGGNCCCT") [("AGGG".toList, 0)]
      (by decide)⟩

/-- C4, as the claim states it, fails: with the counter of `AGGG` pre-seeded
to `2 ^ 64 - 1`, the largest `size_t`, the single usable read `AGGGAGGGAGGG`
leaves the counter at `0`, which is neither its value before nor that value
plus one. -/
theorem single_read_at_size_t_max_wraps :
    'N' ∉ decoded bam_nt16_rev_table (read_of "AGGGAGGGAGGG")
    ∧ liquidate bam_nt16_rev_table "target.bam" (some [read_of "AGGGAGGGAGGG"])
        [("AGGG".toList, 2 ^ 64 - 1)]
      = Except.ok (1, [("AGGG".toList, 0)])
    ∧ ¬ ((0 : Nat) = 2 ^ 64 - 1 ∨ (0 : Nat) = 2 ^ 64 - 1 + 1)
    ∧ ¬ ∃ after : List (List Char × Nat),
        liquidate bam_nt16_rev_table "target.bam" (some [read_of "AGGGAGGGAGGG"])
            [("AGGG".toList, 2 ^ 64 - 1)] = Except.ok (1, after)
        ∧ List.Forall₂ (fun p q => q.1 = p.1 ∧ (q.2 = p.2 ∨ q.2 = p.2 + 1))
            [("AGGG".toList, 2 ^ 64 - 1)] after := by
  have hrun : liquidate bam_nt16_rev_table "target.bam" (some [read_of "AGGGAGGGAGGG"])
        [("AGGG".toList, 2 ^ 64 - 1)]
      = Except.ok (1, [("AGGG".toList, 0)]) := by rfl
  refine ⟨by decide, hrun, by decide, ?_⟩
  rintro ⟨after, h1, h2⟩
  rw [hrun] at h1
  simp only [Except.ok.injEq, Prod.mk.injEq, true_and] at h1
  subst h1
  simp only [List.forall₂_cons, List.Forall₂.nil, and_true, true_and] at h2
  omega

/-- C4, amended: one usable read leaves the motif texts alone and moves every
motif counter by exactly 0 or by one `size_t` increment, which is exactly 1 for
every counter below `2 ^ 64 - 1` (and is the wrap to `0` at `2 ^ 64 - 1`); the
read `AGGGAGGGAGGG`, with the motif `AGGG` three times, and the read
`AGGGTCCCT`, with the motif and its reverse complement, each take the counter of
`AGGG` from 0 to 1. -/
theorem single_read_adds_at_most_one (table : Nat → Char)
    (input_bam_file : String) (read : bam1_t)
    (motif_counts : List (List Char × Nat)) :
    ('N' ∉ decoded table read →
      ∃ after : List (List Char × Nat),
        liquidate table input_bam_file (some [read]) motif_counts = Except.ok (1, after)
        ∧ List.Forall₂ (fun p q => q.1 = p.1 ∧ (q.2 = p.2 ∨ q.2 = (p.2 + 1) % 2 ^ 64))
            motif_counts after)
    ∧ ('N' ∉ decoded table read → (∀ p ∈ motif_counts, p.2 + 1 < 2 ^ 64) →
      ∃ after : List (List Char × Nat),
        liquidate table input_bam_file (some [read]) motif_counts = Except.ok (1, after)
        ∧ List.Forall₂ (fun p q => q.1 = p.1 ∧ (q.2 = p.2 ∨ q.2 = p.2 + 1))
            motif_counts after)
    ∧ liquidate bam_nt16_rev_table input_bam_file (some [read_of "AGGGAGGGAGGG"])
          [("AGGG".toList, 0)] = Except.ok (1, [("AGGG".toList, 1)])
    ∧ liquidate bam_nt16_rev_table input_bam_file (some [read_of "AGGGTCCCT"])
          [("AGGG".toList, 0)] = Except.ok (1, [("AGGG".toList, 1)]) := by
  have hrun : 'N' ∉ decoded table read →
      liquidate table input_bam_file (some [read]) motif_counts
        = Except.ok (1, motif_counts.map (fun p =>
            (p.1, size_t_incr^[[read].countP (counts_for table p.1)] p.2))) := by
    intro hN
    rw [liquidate_some_eq]
    simp [usable, hN]
  refine ⟨?_, ?_, rfl, rfl⟩
  · intro hN
    refine ⟨_, hrun hN, ?_⟩
    rw [List.forall₂_map_right_iff, List.forall₂_same]
    intro p _
    refine ⟨rfl, ?_⟩
    by_cases h : counts_for table p.1 read = true
    · right; simp [List.countP_cons, h, size_t_incr]
    · left; simp [List.countP_cons, h]
  · intro hN hsize
    refine ⟨_, hrun hN, ?_⟩
    rw [List.forall₂_map_right_iff, List.forall₂_same]
    intro p hp
    refine ⟨rfl, ?_⟩
    by_cases h : counts_for table p.1 read = true
    · right
      have hone : size_t_incr p.2 = p.2 + 1 := Nat.mod_eq_of_lt (hsize p hp)
      simp [List.countP_cons, h, hone]
    · left; simp [List.countP_cons, h]

/-- Witness of C4: the read `AGGGAGGGAGGG` is usable and both counters are
below `2 ^ 64 - 1`; run through `liquidate` alone it gives the total 1 and
counters that moved by 0 or 1, and by 0 or one `size_t` increment from any
counters. -/
theorem single_read_adds_at_most_one_witness :
    'N' ∉ decoded bam_nt16_rev_table (read_of "AGGGAGGGAGGG")
    ∧ (∀ p ∈ [("AGGG".toList, 0), ("TGGGAA".toList, 41)], p.2 + 1 < 2 ^ 64)
    ∧ (∃ after : List (List Char × Nat),
        liquidate bam_nt16_rev_table "target.bam" (some [read_of "AGGGAGGGAGGG"])
            [("AGGG".toList, 0), ("TGGGAA".toList, 41)] = Except.ok (1, after)
        ∧ List.Forall₂ (fun p q => q.1 = p.1 ∧ (q.2 = p.2 ∨ q.2 = p.2 + 1))
            [("AGGG".toList, 0), ("TGGGAA".toList, 41)] after)
    ∧ ∃ after : List (List Char × Nat),
        liquidate bam_nt16_rev_table "target.bam" (some [read_of "AGGGAGGGAGGG"])
            [("AGGG".toList, 2 ^ 64 - 1), ("TGGGAA".toList, 41)] = Except.ok (1, after)
        ∧ List.Forall₂ (fun p q => q.1 = p.1 ∧ (q.2 = p.2 ∨ q.2 = (p.2 + 1) % 2 ^ 64))
            [("AGGG".toList, 2 ^ 64 - 1), ("TGGGAA".toList, 41)] after :=
  ⟨by decide, by decide,
    (single_read_adds_at_most_one bam_nt16_rev_table "target.bam"
      (read_of "AGGGAGGGAGGG") [("AGGG".toList, 0), ("TGGGAA".toList, 41)]).2.1
      (by decide) (by decide),
    (single_read_adds_at_most_one bam_nt16_rev_table "target.bam"
      (read_of "AGGGAGGGAGGG") [("AGGG".toList, 2 ^ 64 - 1), ("TGGGAA".toList, 41)]).1
      (by decide)⟩

/-! ## Reverse complement -/

theorem complement_base_mem (c : Char) (hc : c ∈ ['A', 'C', 'G', 'T']) :
    (c = 'A' → complement_base c = 'T') ∧ (c = 'T' → complement_base c = 'A')
      ∧ (c = 'C' → complement_base c = 'G') ∧ (c = 'G' → complement_base c = 'C')
      ∧ complement_base c ∈ ['A', 'C', 'G', 'T'] := by
  simp only [List.mem_cons, List.mem_singleton, List.not_mem_nil, or_false] at hc
  rcases hc with rfl | rfl | rfl | rfl <;> decide

/-- C5: the reverse complement that `liquidate` derives has the length of the
motif; for a motif over `A, C, G, T` its `i`-th base is the complement
(`A↔T`, `C↔G`) of the motif base at the mirrored position; for `TGGGAA` it is
`TTCCCA` and for the palindrome `ACGT` it is `ACGT`. -/
theorem reverse_complement_of_motif (motif : List Char) (count : Nat) :
    reverse_complements [(motif, count)] = [reverse_complement motif]
    ∧ (reverse_complement motif).length = motif.length
    ∧ (∀ i, i < motif.length → (∀ c ∈ motif, c ∈ ['A', 'C', 'G', 'T']) →
        ∃ c d, motif[motif.length - 1 - i]? = some c
          ∧ (reverse_complement motif)[i]? = some d
          ∧ (c = 'A' → d = 'T') ∧ (c = 'T' → d = 'A')
          ∧ (c = 'C' → d = 'G') ∧ (c = 'G' → d = 'C'))
    ∧ reverse_complements [("TGGGAA".toList, count), ("ACGT".toList, count)]
        = ["TTCCCA".toList, "ACGT".toList] := by
  refine ⟨rfl, by simp [reverse_complement, complement], ?_, rfl⟩
  intro i hi hm
  have hj : motif.length - 1 - i < motif.length := by omega
  refine ⟨motif[motif.length - 1 - i], complement_base motif[motif.length - 1 - i],
    List.getElem?_eq_getElem hj, ?_, ?_⟩
  · have hlen : (complement motif).length = motif.length := by simp [complement]
    unfold reverse_complement
    rw [List.getElem?_reverse (by omega), hlen]
    simp [complement, List.getElem?_eq_getElem hj]
  · obtain ⟨h1, h2, h3, h4, _⟩ := complement_base_mem _ (hm _ (List.getElem_mem hj))
    exact ⟨h1, h2, h3, h4⟩

/-- Witness of C5: base 1 of the reverse complement of `TGGGAA` is `T`, the
complement of the `A` at the mirrored position 4. -/
theorem reverse_complement_of_motif_witness :
    1 < "TGGGAA".toList.length
    ∧ (∀ c ∈ "TGGGAA".toList, c ∈ ['A', 'C', 'G', 'T'])
    ∧ ∃ c d, "TGGGAA".toList["TGGGAA".toList.length - 1 - 1]? = some c
        ∧ (reverse_complement "TGGGAA".toList)[1]? = some d
        ∧ (c = 'A' → d = 'T') ∧ (c = 'T' → d = 'A')
        ∧ (c = 'C' → d = 'G') ∧ (c = 'G' → d = 'C') :=
  ⟨by decide, by decide,
    (reverse_complement_of_motif "TGGGAA".toList 0).2.2.1 1 (by decide) (by decide)⟩

/-! ## Invariants of the counters -/

theorem countP_counts_for_le (table : Nat → Char) (motif : List Char)
    (records : List bam1_t) :
    records.countP (counts_for table motif) ≤ records.countP (usable table) := by
  apply List.countP_mono_left
  intro r _ h
  simp only [counts_for, decide_eq_true_eq] at h
  simp [usable, h.1]

/-- C6: from counters that are all zero, after `liquidate` on every prefix of
the records (the whole dataset included), every motif counter is at most the
usable read count, in the loop state and in what `liquidate` returns. -/
theorem match_count_le_usable_read_count (table : Nat → Char)
    (input_bam_file : String) (records : List bam1_t)
    (motif_counts : List (List Char × Nat))
    (hzero : ∀ p ∈ motif_counts, p.2 = 0) (k : Nat) :
    (∀ q ∈ (liquidate_loop table (records.take k) motif_counts).motif_counts,
        q.2 ≤ (liquidate_loop table (records.take k) motif_counts).read_count)
    ∧ ∃ total after,
        liquidate table input_bam_file (some records) motif_counts = Except.ok (total, after)
        ∧ ∀ q ∈ after, q.2 ≤ total := by
  have key : ∀ rs : List bam1_t,
      ∀ q ∈ motif_counts.map (fun p =>
          (p.1, size_t_incr^[rs.countP (counts_for table p.1)] p.2)),
        q.2 ≤ rs.countP (usable table) := by
    intro rs q hq
    obtain ⟨p, hp, rfl⟩ := List.mem_map.mp hq
    simp only [hzero p hp]
    exact Nat.le_trans (size_t_incr_iterate_zero_le _) (countP_counts_for_le table p.1 rs)
  constructor
  · have h := liquidate_some_eq table input_bam_file (records.take k) motif_counts
    simp only [liquidate, Except.ok.injEq, Prod.mk.injEq] at h
    rw [h.1, h.2]
    exact key _
  · exact ⟨_, _, liquidate_some_eq table input_bam_file records motif_counts, key records⟩

/-- Witness of C6: two motifs with zero counters, three records of which one
has an `N`, looked at after the first two records and at the end. -/
theorem match_count_le_usable_read_count_witness :
    (∀ p ∈ [("AGGG".toList, 0), ("TGGGAA".toList, 0)], p.2 = 0)
    ∧ (∀ q ∈ (liquidate_loop bam_nt16_rev_table
          ([read_of "AGGGT", read_of "CCCTN", read_of "TTCCCA"].take 2)
          [("AGGG".toList, 0), ("TGGGAA".toList, 0)]).motif_counts,
        q.2 ≤ (liquidate_loop bam_nt16_rev_table
          ([read_of "AGGGT", read_of "CCCTN", read_of "TTCCCA"].take 2)
          [("AGGG".toList, 0), ("TGGGAA".toList, 0)]).read_count)
    ∧ ∃ total after,
        liquidate bam_nt16_rev_table "background.bam"
            (some [read_of "AGGGT", read_of "CCCTN", read_of "TTCCCA"])
            [("AGGG".toList, 0), ("TGGGAA".toList, 0)] = Except.ok (total, after)
        ∧ ∀ q ∈ after, q.2 ≤ total :=
  ⟨by decide,
    match_count_le_usable_read_count bam_nt16_rev_table "background.bam"
      [read_of "AGGGT", read_of "CCCTN", read_of "TTCCCA"]
      [("AGGG".toList, 0), ("TGGGAA".toList, 0)] (by decide) 2⟩

/-! ## Frame of `liquidate` -/

/-- C7: `liquidate` leaves the length of the motif list, the motif texts and
their order as they were; for the motifs `TGGGAA`, `AGGG` given to `main`, the
background and the target list both come back in that order, and `main` writes
the rows in that order. -/
theorem liquidate_keeps_motifs_in_order (table : Nat → Char)
    (input_bam_file : String) (records : List bam1_t)
    (motif_counts : List (List Char × Nat)) :
    (∃ total after,
        liquidate table input_bam_file (some records) motif_counts = Except.ok (total, after)
        ∧ after.length = motif_counts.length
        ∧ after.map Prod.fst = motif_counts.map Prod.fst)
    ∧ ∀ (prog background target : String) (target_records : List bam1_t),
        (liquidate table background (some records)
            (initial_motif_counts [prog, background, target, "TGGGAA", "AGGG"])).map
              (fun r => r.2.map Prod.fst) = Except.ok ["TGGGAA".toList, "AGGG".toList]
        ∧ (liquidate table target (some target_records)
            (initial_motif_counts [prog, background, target, "TGGGAA", "AGGG"])).map
              (fun r => r.2.map Prod.fst) = Except.ok ["TGGGAA".toList, "AGGG".toList]
        ∧ ∀ files : String → Option (List bam1_t),
            files background = some records → files target = some target_records →
            ∃ bc tc b1 t1 b2 t2,
              main table files [prog, background, target, "TGGGAA", "AGGG"]
                = { exit_code := 0
                    stdout := [Printed.header,
                      Printed.row "TGGGAA".toList b1 bc t1 tc,
                      Printed.row "AGGG".toList b2 bc t2 tc,
                      Printed.totals bc tc]
                    stderr := [] } := by
  constructor
  · refine ⟨_, _, liquidate_some_eq table input_bam_file records motif_counts, ?_, ?_⟩
    · simp
    · rw [List.map_map]
      rfl
  · intro prog background target target_records
    refine ⟨?_, ?_, ?_⟩
    · rw [liquidate_some_eq]
      rfl
    · rw [liquidate_some_eq]
      rfl
    · intro files hb ht
      refine ⟨records.countP (usable table), target_records.countP (usable table),
        size_t_incr^[records.countP (counts_for table "TGGGAA".toList)] 0,
        size_t_incr^[target_records.countP (counts_for table "TGGGAA".toList)] 0,
        size_t_incr^[records.countP (counts_for table "AGGG".toList)] 0,
        size_t_incr^[target_records.countP (counts_for table "AGGG".toList)] 0, ?_⟩
      simp [main, initial_motif_counts, hb, ht, liquidate_some_eq, print_rows]

/-- Witness of C7: a background and a target file of two reads each, with the
motifs `TGGGAA` and `AGGG` on the command line. -/
theorem liquidate_keeps_motifs_in_order_witness :
    (fun path => if path = "background.bam" then some [read_of "AGGGT", read_of "ACGT"]
        else some [read_of "TTCCCA", read_of "CCCT"]) "background.bam"
      = some [read_of "AGGGT", read_of "ACGT"]
    ∧ (fun path => if path = "background.bam" then some [read_of "AGGGT", read_of "ACGT"]
        else some [read_of "TTCCCA", read_of "CCCT"]) "target.bam"
      = some [read_of "TTCCCA", read_of "CCCT"]
    ∧ ∃ bc tc b1 t1 b2 t2,
        main bam_nt16_rev_table
            (fun path => if path = "background.bam" then some [read_of "AGGGT", read_of "ACGT"]
              else some [read_of "TTCCCA", read_of "CCCT"])
            ["motif_liquidator", "background.bam", "target.bam", "TGGGAA", "AGGG"]
          = { exit_code := 0
              stdout := [Printed.header,
                Printed.row "TGGGAA".toList b1 bc t1 tc,
                Printed.row "AGGG".toList b2 bc t2 tc,
                Printed.totals bc tc]
              stderr := [] } :=
  ⟨by decide, by decide,
    ((liquidate_keeps_motifs_in_order bam_nt16_rev_table "background.bam"
      [read_of "AGGGT", read_of "ACGT"] []).2
      "motif_liquidator" "background.bam" "target.bam" [read_of "TTCCCA", read_of "CCCT"]).2.2
      _ (by decide) (by decide)⟩

/-! ## The decoder -/

/-- C8, as the claim states it, fails: the one-base record with the 4-bit code
4 decodes to `G`, the one with the code 8 to `T`; the stated table has `T` for
4 and `G` for 8. -/
theorem code_4_decodes_to_G_and_code_8_to_T :
    bam1_seqi [0x48] 0 = 4 ∧ bam1_seqi [0x48] 1 = 8
    ∧ (decode_read bam_nt16_rev_table [] { l_qseq := 2, seq := [0x48] }).1 = ['G', 'T']
    ∧ ¬ (bam_nt16_rev_table 1 = 'A' ∧ bam_nt16_rev_table 2 = 'C'
          ∧ bam_nt16_rev_table 4 = 'T' ∧ bam_nt16_rev_table 8 = 'G'
          ∧ bam_nt16_rev_table 15 = 'N') := by
  decide

/-- C8, amended: the table has `A` for the code 1, `C` for 2, `G` for 4, `T` for
8 and `N` for 15, and the decoder reproduces it: a record of one base with the
4-bit code `code` decodes to the table entry of `code`, whatever the scratch
string held, and raises `readHasN` for the code 15 only. -/
theorem decoder_reproduces_nt16_rev_table :
    bam_nt16_rev_table 1 = 'A' ∧ bam_nt16_rev_table 2 = 'C'
    ∧ bam_nt16_rev_table 4 = 'G' ∧ bam_nt16_rev_table 8 = 'T'
    ∧ bam_nt16_rev_table 15 = 'N'
    ∧ ∀ (sequence : List Char) (code : Fin 16),
        bam1_seqi [code.val * 16] 0 = code.val
        ∧ decode_read bam_nt16_rev_table sequence { l_qseq := 1, seq := [code.val * 16] }
            = ([bam_nt16_rev_table code.val], decide (code.val = 15)) := by
  refine ⟨by decide, by decide, by decide, by decide, by decide, ?_⟩
  intro sequence code
  rw [decode_read_eq]
  revert code
  decide

/-- C9: whatever the scratch string holds before a record (left by a longer,
a shorter, an equal or a skipped read), after the decode loop it has exactly
`l_qseq` characters, the `i`-th being the table entry of the `i`-th 4-bit code
of the record; the loop gives what it gives from an empty scratch string, and
after any records followed by `read` the scratch string is that of `read`. -/
theorem decode_read_overwrites_scratch (table : Nat → Char)
    (sequence : List Char) (read : bam1_t) :
    (decode_read table sequence read).1.length = read.l_qseq
    ∧ (∀ i, i < read.l_qseq →
        (decode_read table sequence read).1[i]? = some (table (bam1_seqi read.seq i)))
    ∧ decode_read table sequence read = decode_read table [] read
    ∧ ∀ (records : List bam1_t) (motif_counts : List (List Char × Nat)),
        (liquidate_loop table (records ++ [read]) motif_counts).sequence
          = (decode_read table [] read).1 := by
  refine ⟨?_, ?_, ?_, ?_⟩
  · simp [decode_read_eq, decoded]
  · intro i hi
    simp [decode_read_eq, decoded, List.getElem?_range, hi]
  · rw [decode_read_eq, decode_read_eq]
  · intro records motif_counts
    obtain ⟨_, h2⟩ := foldl_liquidate_read table motif_counts records
      { sequence := [], read_count := 0, motif_counts := motif_counts } rfl
    unfold liquidate_loop
    rw [List.foldl_append, List.foldl_cons, List.foldl_nil, liquidate_read_eq]
    · rw [decode_read_eq]
    · rw [h2, List.map_map]
      rfl

/-- Witness of C9: the scratch string holds the eight characters of a longer
read; after decoding the three-base record `TTG` it is `TTG`, with `T` at
index 1. -/
theorem decode_read_overwrites_scratch_witness :
    1 < (read_of "TTG").l_qseq
    ∧ (decode_read bam_nt16_rev_table "ACGTACGT".toList (read_of "TTG")).1[1]?
        = some (bam_nt16_rev_table (bam1_seqi (read_of "TTG").seq 1))
    ∧ (decode_read bam_nt16_rev_table "ACGTACGT".toList (read_of "TTG")).1 = "TTG".toList :=
  ⟨by decide,
    (decode_read_overwrites_scratch bam_nt16_rev_table "ACGTACGT".toList (read_of "TTG")).2.1
      1 (by decide),
    by decide⟩

/-! ## The end-to-end scenario, integer part -/

set_option maxRecDepth 100000 in
/-- The integers behind the end-to-end scenario: with 10 usable background
reads of which 2 contain `AGGG`, and 5 usable target reads of which 4 contain
it, `main` writes one row for `AGGG` built from the raw counts 2 and 4 and the
totals 10 and 5, then the totals. The rates of the row are doubles and are not
evaluated here. -/
theorem end_to_end_raw_counts :
    main bam_nt16_rev_table
        (fun path =>
          if path = "background.bam" then
            some (List.replicate 2 (read_of "AGGG") ++ List.replicate 8 (read_of "ACGT"))
          else
            some (List.replicate 4 (read_of "CCCT") ++ List.replicate 1 (read_of "ACGT")))
        ["motif_liquidator", "background.bam", "target.bam", "AGGG"]
      = { exit_code := 0
          stdout := [Printed.header, Printed.row "AGGG".toList 2 10 4 5, Printed.totals 10 5]
          stderr := [] } := by
  decide

/-! ## `main`: the consistency check and the open fault -/

theorem print_rows_same_texts (background_count target_count : Nat) :
    ∀ (background_motif_counts target_motif_counts : List (List Char × Nat)),
      background_motif_counts.map Prod.fst = target_motif_counts.map Prod.fst →
      (print_rows background_count target_count
        background_motif_counts target_motif_counts).2 = none := by
  intro bs
  induction bs with
  | nil => intro ts _; cases ts <;> rfl
  | cons b bs ih =>
    intro ts h
    cases ts with
    | nil => simp at h
    | cons t ts =>
      simp only [List.map_cons, List.cons.injEq] at h
      simp only [print_rows, ne_eq, h.1, not_true_eq_false, if_false]
      exact ih ts h.2

/-- What `main` does once both files open. -/
theorem main_of_opened (table : Nat → Char) (files : String → Option (List bam1_t))
    (argv : List String) (background_records target_records : List bam1_t)
    (hargs : 4 ≤ argv.length)
    (hb : files (argv.getD 1 "") = some background_records)
    (ht : files (argv.getD 2 "") = some target_records) :
    main table files argv
      = { exit_code := 0
          stdout := Printed.header ::
            (print_rows (background_records.countP (usable table))
              (target_records.countP (usable table))
              ((initial_motif_counts argv).map (fun p =>
                (p.1, size_t_incr^[background_records.countP (counts_for table p.1)] p.2)))
              ((initial_motif_counts argv).map (fun p =>
                (p.1, size_t_incr^[target_records.countP (counts_for table p.1)] p.2)))).1 ++
            [Printed.totals (background_records.countP (usable table))
              (target_records.countP (usable table))]
          stderr := [] } := by
  have hrows := print_rows_same_texts (background_records.countP (usable table))
    (target_records.countP (usable table))
    ((initial_motif_counts argv).map (fun p =>
      (p.1, size_t_incr^[background_records.countP (counts_for table p.1)] p.2)))
    ((initial_motif_counts argv).map (fun p =>
      (p.1, size_t_incr^[target_records.countP (counts_for table p.1)] p.2)))
    (by rw [List.map_map, List.map_map]; rfl)
  have hlen : ¬ argv.length < 4 := by omega
  simp only [main, hlen, if_false, hb, ht, liquidate_some_eq, hrows]

/-- C11: with at least one motif on the command line and two files that open,
the two result lists of `main` have the same motif text at every position, the
row loop throws nothing, and `main` returns 0 with nothing on `std::cerr`: the
"internal logic error" is never thrown. -/
theorem internal_logic_error_unreachable (table : Nat → Char)
    (files : String → Option (List bam1_t)) (argv : List String)
    (background_records target_records : List bam1_t)
    (hargs : 4 ≤ argv.length)
    (hb : files (argv.getD 1 "") = some background_records)
    (ht : files (argv.getD 2 "") = some target_records) :
    ∃ (background_count : Nat) (background_motif_counts : List (List Char × Nat))
      (target_count : Nat) (target_motif_counts : List (List Char × Nat)),
      liquidate table (argv.getD 1 "") (files (argv.getD 1 "")) (initial_motif_counts argv)
        = Except.ok (background_count, background_motif_counts)
      ∧ liquidate table (argv.getD 2 "") (files (argv.getD 2 "")) (initial_motif_counts argv)
        = Except.ok (target_count, target_motif_counts)
      ∧ (∀ i : Nat, (background_motif_counts[i]?).map Prod.fst
          = (target_motif_counts[i]?).map Prod.fst)
      ∧ (print_rows background_count target_count
          background_motif_counts target_motif_counts).2 = none
      ∧ (main table files argv).exit_code = 0
      ∧ (main table files argv).stderr = []
      ∧ "internal logic error" ∉ (main table files argv).stderr := by
  refine ⟨background_records.countP (usable table),
    (initial_motif_counts argv).map (fun p =>
      (p.1, size_t_incr^[background_records.countP (counts_for table p.1)] p.2)),
    target_records.countP (usable table),
    (initial_motif_counts argv).map (fun p =>
      (p.1, size_t_incr^[target_records.countP (counts_for table p.1)] p.2)),
    ?_, ?_, ?_, ?_, ?_, ?_, ?_⟩
  · rw [hb]; exact liquidate_some_eq table _ background_records _
  · rw [ht]; exact liquidate_some_eq table _ target_records _
  · intro i
    simp only [List.getElem?_map, Option.map_map]
    rfl
  · exact print_rows_same_texts _ _ _ _ (by rw [List.map_map, List.map_map]; rfl)
  · rw [main_of_opened table files argv background_records target_records hargs hb ht]
  · rw [main_of_opened table files argv background_records target_records hargs hb ht]
  · rw [main_of_opened table files argv background_records target_records hargs hb ht]
    simp

/-- Witness of C11: two motifs and two files that open. -/
theorem internal_logic_error_unreachable_witness :
    4 ≤ ["motif_liquidator", "background.bam", "target.bam", "TGGGAA", "AGGG"].length
    ∧ (main bam_nt16_rev_table
        (fun path => if path = "background.bam" then some [read_of "AGGGT", read_of "ACGT"]
          else some [read_of "TTCCCA", read_of "CCCT"])
        ["motif_liquidator", "background.bam", "target.bam", "TGGGAA", "AGGG"]).exit_code = 0 :=
  ⟨by decide,
    by
      obtain ⟨_, _, _, _, _, _, _, _, h, _⟩ := internal_logic_error_unreachable
        bam_nt16_rev_table
        (fun path => if path = "background.bam" then some [read_of "AGGGT", read_of "ACGT"]
          else some [read_of "TTCCCA", read_of "CCCT"])
        ["motif_liquidator", "background.bam", "target.bam", "TGGGAA", "AGGG"]
        [read_of "AGGGT", read_of "ACGT"] [read_of "TTCCCA", read_of "CCCT"]
        (by decide) (by decide) (by decide)
      exact h⟩

/-- What `main` does when the background file does not open. -/
theorem main_of_background_fault (table : Nat → Char)
    (files : String → Option (List bam1_t)) (argv : List String)
    (hargs : 4 ≤ argv.length) (hb : files (argv.getD 1 "") = none) :
    main table files argv
      = { exit_code := 2, stdout := [],
          stderr := ["failed to open " ++ argv.getD 1 ""] } := by
  have hlen : ¬ argv.length < 4 := by omega
  simp only [main, hlen, if_false, hb, liquidate]

/-- What `main` does when the background file opens and the target file does
not. -/
theorem main_of_target_fault (table : Nat → Char)
    (files : String → Option (List bam1_t)) (argv : List String)
    (background_records : List bam1_t)
    (hargs : 4 ≤ argv.length) (hb : files (argv.getD 1 "") = some background_records)
    (ht : files (argv.getD 2 "") = none) :
    main table files argv
      = { exit_code := 2, stdout := [],
          stderr := ["failed to open " ++ argv.getD 2 ""] } := by
  have hlen : ¬ argv.length < 4 := by omega
  simp only [main, hlen, if_false, hb, ht, liquidate]

/-- C12: `liquidate` on a file that does not open throws "failed to open "
followed by the path of that file; when the background file, or else the
target file, does not open, `main` writes nothing to `std::cout`, puts that
message on `std::cerr` and returns 2; and whenever `main` has written anything
to `std::cout`, both files opened. -/
theorem open_fault_is_all_or_nothing (table : Nat → Char)
    (files : String → Option (List bam1_t)) (argv : List String) :
    (∀ (input_bam_file : String) (motif_counts : List (List Char × Nat)),
        liquidate table input_bam_file none motif_counts
          = Except.error ("failed to open " ++ input_bam_file))
    ∧ (4 ≤ argv.length → files (argv.getD 1 "") = none →
        main table files argv
          = { exit_code := 2, stdout := [],
              stderr := ["failed to open " ++ argv.getD 1 ""] })
    ∧ (4 ≤ argv.length → files (argv.getD 1 "") ≠ none → files (argv.getD 2 "") = none →
        main table files argv
          = { exit_code := 2, stdout := [],
              stderr := ["failed to open " ++ argv.getD 2 ""] })
    ∧ ((main table files argv).stdout ≠ [] →
        4 ≤ argv.length ∧ (main table files argv).exit_code = 0
          ∧ ∃ background_records target_records,
              files (argv.getD 1 "") = some background_records
              ∧ files (argv.getD 2 "") = some target_records) := by
  refine ⟨fun _ _ => rfl, ?_, ?_, ?_⟩
  · intro hargs hb
    exact main_of_background_fault table files argv hargs hb
  · intro hargs hb ht
    obtain ⟨background_records, hb'⟩ := Option.ne_none_iff_exists'.mp hb
    exact main_of_target_fault table files argv background_records hargs hb' ht
  · intro hout
    by_cases hlen : argv.length < 4
    · simp [main, hlen] at hout
    · have hargs : 4 ≤ argv.length := by omega
      obtain hb | ⟨background_records, hb⟩ :=
        Option.eq_none_or_eq_some (files (argv.getD 1 ""))
      · rw [main_of_background_fault table files argv hargs hb] at hout
        exact absurd rfl hout
      · obtain ht | ⟨target_records, ht⟩ :=
          Option.eq_none_or_eq_some (files (argv.getD 2 ""))
        · rw [main_of_target_fault table files argv background_records hargs hb ht] at hout
          exact absurd rfl hout
        · refine ⟨hargs, ?_, background_records, target_records, hb, ht⟩
          rw [main_of_opened table files argv background_records target_records hargs hb ht]

/-- Witness of C12: the background file opens, the target file does not;
`main` returns 2, writes nothing and names the target file. -/
theorem open_fault_is_all_or_nothing_witness :
    4 ≤ ["motif_liquidator", "background.bam", "missing.bam", "AGGG"].length
    ∧ (fun path => if path = "background.bam" then some [read_of "AGGGT"] else none)
        (["motif_liquidator", "background.bam", "missing.bam", "AGGG"].getD 1 "") ≠ none
    ∧ (fun path => if path = "background.bam" then some [read_of "AGGGT"] else none)
        (["motif_liquidator", "background.bam", "missing.bam", "AGGG"].getD 2 "") = none
    ∧ main bam_nt16_rev_table
        (fun path => if path = "background.bam" then some [read_of "AGGGT"] else none)
        ["motif_liquidator", "background.bam", "missing.bam", "AGGG"]
      = { exit_code := 2, stdout := [], stderr := ["failed to open missing.bam"] } :=
  ⟨by decide, by decide, by decide,
    (open_fault_is_all_or_nothing bam_nt16_rev_table
      (fun path => if path = "background.bam" then some [read_of "AGGGT"] else none)
      ["motif_liquidator", "background.bam", "missing.bam", "AGGG"]).2.2.1
      (by decide) (by decide) (by decide)⟩

/-! ## Resources on the exit paths -/

/-- C13, on the code: when the record object and the file handle are acquired
and `bam_header_read` returns null (an existing file that is not a BAM file),
`liquidate` throws "failed to open" with no release call: the record object and
the file handle are still held. When all three are acquired, every one is
released exactly once and nothing is held at return. -/
theorem open_fault_leaves_resources_held :
    liquidate bam_nt16_rev_table "notes.txt"
        (opened { read := true, input := true, header := false } [])
        [("AGGG".toList, 0)]
      = Except.error "failed to open notes.txt"
    ∧ liquidate_resources { read := true, input := true, header := false }
      = ([ResourceEvent.acquire Resource.read, ResourceEvent.acquire Resource.input], true)
    ∧ still_held (liquidate_resources { read := true, input := true, header := false }).1
      = [Resource.read, Resource.input]
    ∧ release_count Resource.read
        (liquidate_resources { read := true, input := true, header := false }).1 = 0
    ∧ release_count Resource.input
        (liquidate_resources { read := true, input := true, header := false }).1 = 0
    ∧ still_held (liquidate_resources { read := true, input := false, header := false }).1
      = [Resource.read]
    ∧ still_held (liquidate_resources { read := true, input := true, header := true }).1 = []
    ∧ (∀ r : Resource, release_count r
        (liquidate_resources { read := true, input := true, header := true }).1 = 1) := by
  refine ⟨rfl, by decide, by decide, by decide, by decide, by decide, by decide, ?_⟩
  intro r
  cases r <;> decide

/-! ## Relations between runs of `liquidate` -/

/-- C14: `liquidate` on `d1`, then on `d2` with the motif list as the first
call left it, gives the counters of one call on `d1 ++ d2` from the same
initial counters, and the two returned totals add up to the total of that one
call. -/
theorem counters_accumulate_across_calls (table : Nat → Char)
    (file1 file2 file12 : String) (d1 d2 : List bam1_t)
    (motif_counts : List (List Char × Nat)) :
    ∃ (total1 : Nat) (after1 : List (List Char × Nat))
      (total2 : Nat) (after2 : List (List Char × Nat)),
      liquidate table file1 (some d1) motif_counts = Except.ok (total1, after1)
      ∧ liquidate table file2 (some d2) after1 = Except.ok (total2, after2)
      ∧ liquidate table file12 (some (d1 ++ d2)) motif_counts
          = Except.ok (total1 + total2, after2) := by
  refine ⟨_, _, _, _, liquidate_some_eq table file1 d1 motif_counts,
    liquidate_some_eq table file2 d2 _, ?_⟩
  rw [liquidate_some_eq, List.countP_append, List.map_map]
  congr 2
  apply List.map_congr_left
  intro p _
  simp only [Function.comp, List.countP_append]
  rw [Nat.add_comm, Function.iterate_add_apply]

theorem reverse_complement_involutive (motif : List Char)
    (hm : ∀ c ∈ motif, c ∈ ['A', 'C', 'G', 'T']) :
    reverse_complement (reverse_complement motif) = motif := by
  unfold reverse_complement complement
  rw [List.map_reverse, List.reverse_reverse, List.map_map]
  conv_rhs => rw [← List.map_id motif]
  apply List.map_congr_left
  intro c hc
  have h := hm c hc
  simp only [List.mem_cons, List.mem_singleton, List.not_mem_nil, or_false] at h
  rcases h with rfl | rfl | rfl | rfl <;> decide

theorem counts_for_reverse_complement (table : Nat → Char) (motif : List Char)
    (hm : ∀ c ∈ motif, c ∈ ['A', 'C', 'G', 'T']) (read : bam1_t) :
    counts_for table (reverse_complement motif) read = counts_for table motif read := by
  unfold counts_for
  rw [reverse_complement_involutive motif hm]
  apply decide_eq_decide.mpr
  constructor
  · rintro ⟨h, h1 | h2⟩
    · exact ⟨h, Or.inr h1⟩
    · exact ⟨h, Or.inl h2⟩
  · rintro ⟨h, h1 | h2⟩
    · exact ⟨h, Or.inr h1⟩
    · exact ⟨h, Or.inl h2⟩

/-- C15: for a motif over `A, C, G, T` the reverse complement of its reverse
complement is the motif, and `liquidate` from zero counters gives the motif and
its reverse complement the same match count, run alone or side by side. -/
theorem strand_symmetry (table : Nat → Char) (input_bam_file : String)
    (records : List bam1_t) (motif : List Char)
    (hm : ∀ c ∈ motif, c ∈ ['A', 'C', 'G', 'T']) :
    reverse_complement (reverse_complement motif) = motif
    ∧ ∃ (total count : Nat),
        liquidate table input_bam_file (some records) [(motif, 0)]
          = Except.ok (total, [(motif, count)])
        ∧ liquidate table input_bam_file (some records) [(reverse_complement motif, 0)]
          = Except.ok (total, [(reverse_complement motif, count)])
        ∧ liquidate table input_bam_file (some records)
            [(motif, 0), (reverse_complement motif, 0)]
          = Except.ok (total, [(motif, count), (reverse_complement motif, count)]) := by
  refine ⟨reverse_complement_involutive motif hm,
    records.countP (usable table),
    size_t_incr^[records.countP (counts_for table motif)] 0, ?_, ?_, ?_⟩
  · rw [liquidate_some_eq]
    simp
  · have hc : counts_for table (reverse_complement motif) = counts_for table motif :=
      funext (counts_for_reverse_complement table motif hm)
    rw [liquidate_some_eq]
    simp [hc]
  · have hc : counts_for table (reverse_complement motif) = counts_for table motif :=
      funext (counts_for_reverse_complement table motif hm)
    rw [liquidate_some_eq]
    simp [hc]

/-- Witness of C15: the motif `TGGGAA` on three reads, one with the motif, one
with its reverse complement `TTCCCA`, one with neither. -/
theorem strand_symmetry_witness :
    (∀ c ∈ "TGGGAA".toList, c ∈ ['A', 'C', 'G', 'T'])
    ∧ reverse_complement (reverse_complement "TGGGAA".toList) = "TGGGAA".toList
    ∧ ∃ (total count : Nat),
        liquidate bam_nt16_rev_table "target.bam"
            (some [read_of "ATGGGAAC", read_of "TTCCCA", read_of "ACGT"])
            [("TGGGAA".toList, 0)]
          = Except.ok (total, [("TGGGAA".toList, count)])
        ∧ liquidate bam_nt16_rev_table "target.bam"
            (some [read_of "ATGGGAAC", read_of "TTCCCA", read_of "ACGT"])
            [(reverse_complement "TGGGAA".toList, 0)]
          = Except.ok (total, [(reverse_complement "TGGGAA".toList, count)])
        ∧ liquidate bam_nt16_rev_table "target.bam"
            (some [read_of "ATGGGAAC", read_of "TTCCCA", read_of "ACGT"])
            [("TGGGAA".toList, 0), (reverse_complement "TGGGAA".toList, 0)]
          = Except.ok (total,
              [("TGGGAA".toList, count), (reverse_complement "TGGGAA".toList, count)]) :=
  ⟨by decide,
    strand_symmetry bam_nt16_rev_table "target.bam"
      [read_of "ATGGGAAC", read_of "TTCCCA", read_of "ACGT"] "TGGGAA".toList (by decide)⟩

/-- C16: the total that `liquidate` returns is the same for every two motif
lists, the empty one included; and in a list whose counters are all zero, the
count left at any position is the count that `liquidate` leaves for that motif
alone, whatever the other motifs of the list and their order. -/
theorem motifs_are_independent (table : Nat → Char) (input_bam_file : String)
    (records : List bam1_t) (motif_counts other : List (List Char × Nat)) :
    (liquidate table input_bam_file (some records) motif_counts).map Prod.fst
        = (liquidate table input_bam_file (some records) other).map Prod.fst
    ∧ (liquidate table input_bam_file (some records) motif_counts).map Prod.fst
        = (liquidate table input_bam_file (some records) []).map Prod.fst
    ∧ ((∀ p ∈ motif_counts, p.2 = 0) →
        ∀ (i : Nat) (motif : List Char), (motif_counts[i]?).map Prod.fst = some motif →
          ∃ (total count : Nat) (after : List (List Char × Nat)),
            liquidate table input_bam_file (some records) motif_counts
              = Except.ok (total, after)
            ∧ after[i]? = some (motif, count)
            ∧ liquidate table input_bam_file (some records) [(motif, 0)]
              = Except.ok (total, [(motif, count)])) := by
  refine ⟨?_, ?_, ?_⟩
  · simp only [liquidate_some_eq, Except.map]
  · simp only [liquidate_some_eq, Except.map]
  · intro hzero i motif hi
    refine ⟨records.countP (usable table),
      size_t_incr^[records.countP (counts_for table motif)] 0, _,
      liquidate_some_eq table input_bam_file records motif_counts, ?_, ?_⟩
    · cases hp : motif_counts[i]? with
      | none => simp [hp] at hi
      | some p =>
        simp only [hp, Option.map_some', Option.some.injEq] at hi
        have hmem : p ∈ motif_counts := List.getElem?_mem hp
        simp only [List.getElem?_map, hp, Option.map_some', hzero p hmem, hi]
    · rw [liquidate_some_eq]
      simp

/-- Witness of C16: `AGGG` in second position of a zero list of three motifs
has the count it has when run alone. -/
theorem motifs_are_independent_witness :
    (∀ p ∈ [("TGGGAA".toList, 0), ("AGGG".toList, 0), ("ACGT".toList, 0)], p.2 = 0)
    ∧ ([("TGGGAA".toList, 0), ("AGGG".toList, 0), ("ACGT".toList, 0)][1]?).map Prod.fst
        = some "AGGG".toList
    ∧ ∃ (total count : Nat) (after : List (List Char × Nat)),
        liquidate bam_nt16_rev_table "target.bam"
            (some [read_of "AGGGT", read_of "CCCTN", read_of "ACCCTA"])
            [("TGGGAA".toList, 0), ("AGGG".toList, 0), ("ACGT".toList, 0)]
          = Except.ok (total, after)
        ∧ after[1]? = some ("AGGG".toList, count)
        ∧ liquidate bam_nt16_rev_table "target.bam"
            (some [read_of "AGGGT", read_of "CCCTN", read_of "ACCCTA"])
            [("AGGG".toList, 0)]
          = Except.ok (total, [("AGGG".toList, count)]) :=
  ⟨by decide, by decide,
    (motifs_are_independent bam_nt16_rev_table "target.bam"
      [read_of "AGGGT", read_of "CCCTN", read_of "ACCCTA"]
      [("TGGGAA".toList, 0), ("AGGG".toList, 0), ("ACGT".toList, 0)] []).2.2
      (by decide) 1 "AGGG".toList (by decide)⟩

end MotifLiquidator
